import Mathlib

/-!
Shallow embedding of the career-choice Monte Carlo simulator from
`exam project/exam.py` (the class `CareerChoice` and the module-level
helper `count`).

Randomness: every call to `np.random.normal(loc=0, scale=sigma, size=m)`
is modelled as reading `m` consecutive values from an abstract stream
`u : ℕ → ℚ` of standard-normal realizations, each scaled by `sigma`
(so a scale of `0` yields the draw `0`, as in numpy).  A counter `k`
records how many stream values have been consumed so far and is threaded
through every function exactly in the order the Python code draws from
the global generator.  Floating-point numbers are modelled as rationals.
-/

namespace CareerChoice

/-- Parameters set by `CareerChoice.__init__` (`self.par`), in source
order `J, N, K, sigma, v, c`.  The unused field `F = arange(1, N+1)` is
omitted.  The values hard-coded by `__init__` are `defaultPar` below. -/
structure Par where
  J : ℕ
  N : ℕ
  K : ℕ
  sigma : ℚ
  v : List ℚ
  c : ℚ

/-- The parameter values hard-coded by `CareerChoice.__init__`:
`J = 3`, `N = 10`, `K = 10000`, `sigma = 2`, `v = [1,2,3]`, `c = 1`. -/
def defaultPar : Par := ⟨3, 10, 10000, 2, [1, 2, 3], 1⟩

/-- Model of `np.random.normal(loc=0, scale=sigma, size=size)` when the
stream counter stands at `k`: the list of the next `size` scaled draws. -/
def drawList (sigma : ℚ) (u : ℕ → ℚ) (k : ℕ) (size : ℕ) : List ℚ :=
  (List.range size).map fun t => sigma * u (k + t)

/-- Result of one of the estimator methods `v1`/`v2`/`v3`: the list `EU`
it returns, together with the stream counter after all its draws. -/
structure VOut where
  EU : List ℚ
  k : ℕ

/-- Common loop body of `v1`, `v2` and `v3`: for each `i` in the given
index list, draw `i` samples and append `1/i*(j*i + eps.sum())`.  The
three Python methods are textually identical up to the constant `j`. -/
def vjAux (par : Par) (u : ℕ → ℚ) (j : ℚ) : List ℕ → ℕ → VOut
  | [], k => ⟨[], k⟩
  | i :: rest, k =>
    let eps := drawList par.sigma u k i
    let eu := 1 / (i : ℚ) * (j * (i : ℚ) + eps.sum)
    let r := vjAux par u j rest (k + i)
    ⟨eu :: r.EU, r.k⟩

/-- `CareerChoice.v1`: for `i in range(1, N+1)`, `1/i*(1*i + eps.sum())`. -/
def v1 (par : Par) (u : ℕ → ℚ) (k : ℕ) : VOut :=
  vjAux par u 1 (List.range' 1 par.N) k

/-- `CareerChoice.v2`: for `i in range(1, N+1)`, `1/i*(2*i + eps.sum())`. -/
def v2 (par : Par) (u : ℕ → ℚ) (k : ℕ) : VOut :=
  vjAux par u 2 (List.range' 1 par.N) k

/-- `CareerChoice.v3`: for `i in range(1, N+1)`, `1/i*(3*i + eps.sum())`. -/
def v3 (par : Par) (u : ℕ → ℚ) (k : ℕ) : VOut :=
  vjAux par u 3 (List.range' 1 par.N) k

/-- Body of the first loop of `CareerChoice.career` for one type index:
`choice = np.max([EUv1[i], EUv2[i], EUv3[i]])` followed by the equality
branches; every branch draws one fresh noise term.  Returns
(chosen track, recorded EV, recorded noise term, new counter). -/
def careerStep (par : Par) (u : ℕ → ℚ) (e1 e2 e3 : ℚ) (k : ℕ) :
    ℕ × ℚ × ℚ × ℕ :=
  let choice := max (max e1 e2) e3
  if choice = e1 then (1, e1, par.sigma * u k, k + 1)
  else if choice = e2 then (2, e2, par.sigma * u k, k + 1)
  else (3, e3, par.sigma * u k, k + 1)

/-- Lists built by the first loop of `CareerChoice.career`, plus the
stream counter after the loop. -/
structure ChoiceOut where
  career : List ℕ
  EV : List ℚ
  noiseterm : List ℚ
  k : ℕ

/-- First loop of `CareerChoice.career`, over the type indices
`i in range(0, N)`. -/
def careerAux (par : Par) (u : ℕ → ℚ) (E1 E2 E3 : List ℚ) :
    List ℕ → ℕ → ChoiceOut
  | [], k => ⟨[], [], [], k⟩
  | i :: rest, k =>
    let s := careerStep par u (E1.getD i 0) (E2.getD i 0) (E3.getD i 0) k
    let r := careerAux par u E1 E2 E3 rest s.2.2.2
    ⟨s.1 :: r.career, s.2.1 :: r.EV, s.2.2.1 :: r.noiseterm, r.k⟩

/-- The triple returned by `CareerChoice.career`, plus the counter. -/
structure CareerOut where
  career : List ℕ
  EV : List ℚ
  RV : List ℚ
  k : ℕ

/-- `CareerChoice.career`: compute the three estimate lists via `v1`,
`v2`, `v3`, run the choice loop, then build `RV` in a second loop as
`career[i] + noiseterm[i]`. -/
def career (par : Par) (u : ℕ → ℚ) (k : ℕ) : CareerOut :=
  let r1 := v1 par u k
  let r2 := v2 par u r1.k
  let r3 := v3 par u r2.k
  let ch := careerAux par u r1.EU r2.EU r3.EU (List.range par.N) r3.k
  let RV := (List.range par.N).map fun i =>
    ((ch.career.getD i 0 : ℚ) + ch.noiseterm.getD i 0)
  ⟨ch.career, ch.EV, RV, ch.k⟩

/-- One type's record lists accumulated by `CareerChoice.simulate`:
chosen careers, EVs, RVs for that type, plus the final counter. -/
structure TypeOut where
  cs : List ℕ
  evs : List ℚ
  rvs : List ℚ
  k : ℕ

/-- Inner `while n <= par.K` loop of `CareerChoice.simulate` for type
index `i`, with `m` iterations left: each iteration calls `career()` and
records component `i` of each returned list. -/
def simulateType (par : Par) (u : ℕ → ℚ) (i : ℕ) : ℕ → ℕ → TypeOut
  | 0, k => ⟨[], [], [], k⟩
  | m + 1, k =>
    let c := career par u k
    let r := simulateType par u i m c.k
    ⟨c.career.getD i 0 :: r.cs, c.EV.getD i 0 :: r.evs,
      c.RV.getD i 0 :: r.rvs, r.k⟩

/-- The three dictionaries returned by `CareerChoice.simulate`, keyed
`1..10` in the source; key `i+1` is list position `i` here. -/
structure SimOut where
  careerdict : List (List ℕ)
  EVdict : List (List ℚ)
  RVdict : List (List ℚ)
  k : ℕ

/-- The dictionary literal `{1: [], ..., 10: []}` with ℕ-valued lists. -/
def dictLitN : List (List ℕ) := List.replicate 10 []

/-- The dictionary literal `{1: [], ..., 10: []}` with ℚ-valued lists. -/
def dictLitQ : List (List ℚ) := List.replicate 10 []

/-- Outer `for i in range(0, N)` loop of `CareerChoice.simulate`.  Note
the inner loop is `n = 0; while n <= par.K`, i.e. `par.K + 1` passes. -/
def simulateLoop (par : Par) (u : ℕ → ℚ) :
    List ℕ → List (List ℕ) → List (List ℚ) → List (List ℚ) → ℕ → SimOut
  | [], cd, evd, rvd, k => ⟨cd, evd, rvd, k⟩
  | i :: rest, cd, evd, rvd, k =>
    let r := simulateType par u i (par.K + 1) k
    simulateLoop par u rest (cd.set i r.cs) (evd.set i r.evs)
      (rvd.set i r.rvs) r.k

/-- `CareerChoice.simulate`. -/
def simulate (par : Par) (u : ℕ → ℚ) (k : ℕ) : SimOut :=
  simulateLoop par u (List.range par.N) dictLitN dictLitQ dictLitQ k

/-- One (type, trial) record appended by `CareerChoice.career_alt`:
new career, new EV, switch indicator, new RV, and the counter after the
optional fresh noise draw. -/
structure AltRec where
  career : ℕ
  EV : ℚ
  sw : ℕ
  RV : ℚ
  k : ℕ

/-- Branch body of `CareerChoice.career_alt` for one (type, trial) cell,
given the original career `orig = careerdict[i+1][n]`, the realized value
`rv = RVdict[i+1][n]` and the fresh estimates `e1, e2, e3` for this type:
`c = np.max([rv, alt1 - par.c, alt2 - par.c])` followed by the equality
branches; switching draws one fresh noise term. -/
def careerAltCell (par : Par) (u : ℕ → ℚ) (orig : ℕ) (rv e1 e2 e3 : ℚ)
    (k : ℕ) : AltRec :=
  if orig = 1 then
    let c := max (max rv (e2 - par.c)) (e3 - par.c)
    if c = rv then ⟨1, rv, 0, rv, k⟩
    else if c = e2 - par.c then
      ⟨2, e2 - par.c, 1, 2 - par.c + par.sigma * u k, k + 1⟩
    else ⟨3, e3 - par.c, 1, 3 - par.c + par.sigma * u k, k + 1⟩
  else if orig = 2 then
    let c := max (max rv (e1 - par.c)) (e3 - par.c)
    if c = rv then ⟨2, rv, 0, rv, k⟩
    else if c = e1 - par.c then
      ⟨1, e1 - par.c, 1, 1 - par.c + par.sigma * u k, k + 1⟩
    else ⟨3, e3 - par.c, 1, 3 - par.c + par.sigma * u k, k + 1⟩
  else
    let c := max (max rv (e1 - par.c)) (e2 - par.c)
    if c = rv then ⟨3, rv, 0, rv, k⟩
    else if c = e1 - par.c then
      ⟨1, e1 - par.c, 1, 1 - par.c + par.sigma * u k, k + 1⟩
    else ⟨2, e2 - par.c, 1, 2 - par.c + par.sigma * u k, k + 1⟩

/-- One type's record lists accumulated by `CareerChoice.career_alt`. -/
structure AltRowOut where
  sws : List ℕ
  cs : List ℕ
  evs : List ℚ
  rvs : List ℚ
  k : ℕ

/-- Inner `for n in range(0, K)` loop of `CareerChoice.career_alt` for
type index `i`: each trial recomputes `v1()`, `v2()`, `v3()` and then
runs the branch body on entry `n` of this type's record lists. -/
def careerAltRow (par : Par) (u : ℕ → ℚ) (i : ℕ) (cdi : List ℕ)
    (rvdi : List ℚ) : List ℕ → ℕ → AltRowOut
  | [], k => ⟨[], [], [], [], k⟩
  | n :: rest, k =>
    let r1 := v1 par u k
    let r2 := v2 par u r1.k
    let r3 := v3 par u r2.k
    let cell := careerAltCell par u (cdi.getD n 0) (rvdi.getD n 0)
      (r1.EU.getD i 0) (r2.EU.getD i 0) (r3.EU.getD i 0) r3.k
    let r := careerAltRow par u i cdi rvdi rest cell.k
    ⟨cell.sw :: r.sws, cell.career :: r.cs, cell.EV :: r.evs,
      cell.RV :: r.rvs, r.k⟩

/-- The four dictionaries returned by `CareerChoice.career_alt`. -/
structure AltOut where
  switchdict : List (List ℕ)
  careerdict_alt : List (List ℕ)
  EVdict_alt : List (List ℚ)
  RVdict_alt : List (List ℚ)
  k : ℕ

/-- Outer `for i in range(0, N)` loop of `CareerChoice.career_alt`. -/
def careerAltLoop (par : Par) (u : ℕ → ℚ) (cd : List (List ℕ))
    (rvd : List (List ℚ)) :
    List ℕ → List (List ℕ) → List (List ℕ) → List (List ℚ) →
      List (List ℚ) → ℕ → AltOut
  | [], swd, cad, evd, rvda, k => ⟨swd, cad, evd, rvda, k⟩
  | i :: rest, swd, cad, evd, rvda, k =>
    let r := careerAltRow par u i (cd.getD i []) (rvd.getD i [])
      (List.range par.K) k
    careerAltLoop par u cd rvd rest (swd.set i r.sws) (cad.set i r.cs)
      (evd.set i r.evs) (rvda.set i r.rvs) r.k

/-- `CareerChoice.career_alt`, taking the `careerdict` and `RVdict`
produced by `simulate`. -/
def career_alt (par : Par) (u : ℕ → ℚ) (cd : List (List ℕ))
    (rvd : List (List ℚ)) (k : ℕ) : AltOut :=
  careerAltLoop par u cd rvd (List.range par.N) dictLitN dictLitN
    dictLitQ dictLitQ k

/-- `CareerChoice.__init__(seed)`: sets the hard-coded parameters, seeds
the global generator when `seed` is not `None`, and stores the seed.  The
body contains no `raise` and no parameter check, so the embedding, as
fallible code, always returns `Except.ok`. -/
def init (seed : Option ℤ) : Except String (Par × Option ℤ) :=
  Except.ok (defaultPar, seed)

/-- The two career tracks a graduate did not pick originally, listed in
the order in which the corresponding `career_alt` branch compares their
fresh estimates against the realized value. -/
def altPair (orig : ℕ) (e1 e2 e3 : ℚ) : ℚ × ℚ :=
  if orig = 1 then (e2, e3) else if orig = 2 then (e1, e3) else (e1, e2)

end CareerChoice

/-- Module-level helper: the three counters built by `count`. -/
def countAux : List ℕ → ℕ × ℕ × ℕ
  | [] => (0, 0, 0)
  | e :: rest =>
    let r := countAux rest
    if e = 1 then (r.1 + 1, r.2.1, r.2.2)
    else if e = 2 then (r.1, r.2.1 + 1, r.2.2)
    else (r.1, r.2.1, r.2.2 + 1)

/-- Module-level function `count`: empirical shares of careers 1, 2 and
everything else over a list of recorded careers. -/
def count (l : List ℕ) : List ℚ :=
  let r := countAux l
  [(r.1 : ℚ) / l.length, (r.2.1 : ℚ) / l.length, (r.2.2 : ℚ) / l.length]

/-- Sum `1 + 2 + ... + m`: the number of stream values one pass of
`v1`/`v2`/`v3` consumes for the first `m` graduate types. -/
def triangle : ℕ → ℕ
  | 0 => 0
  | m + 1 => triangle m + (m + 1)

/-- The all-zeros realization stream (every standard-normal draw is 0). -/
def zeroStream : ℕ → ℚ := fun _ => 0

/-- The all-ones realization stream (every standard-normal draw is 1). -/
def oneStream : ℕ → ℚ := fun _ => 1

/-- Parameters with `N = 2`, `sigma = 1`, other values as hard-coded. -/
def parC1 : CareerChoice.Par := ⟨3, 2, 10000, 1, [1, 2, 3], 1⟩

/-- Parameters with `N = 1`, other values as hard-coded. -/
def parC3 : CareerChoice.Par := ⟨3, 1, 10000, 2, [1, 2, 3], 1⟩

/-- Parameters with `N = 1`, `K = 2`, `sigma = 0`. -/
def parBug : CareerChoice.Par := ⟨3, 1, 2, 0, [1, 2, 3], 1⟩

/-- Malformed parameters: `K = 0` and `sigma = 0` are non-positive. -/
def parBad : CareerChoice.Par := ⟨3, 1, 0, 0, [1, 2, 3], 1⟩

/-- The determinism-scenario parameters `N = 3`, `K = 1000`, `sigma = 1`,
`v = [1,2,3]`, `c = 1`. -/
def parSeed : CareerChoice.Par := ⟨3, 3, 1000, 1, [1, 2, 3], 1⟩

/-- The zero-noise scenario parameters `N = 1`, `K = 5`, `sigma = 0`,
`v = [1,2,3]`, `c = 1`. -/
def parScen : CareerChoice.Par := ⟨3, 1, 5, 0, [1, 2, 3], 1⟩

namespace CareerChoice

lemma drawList_sigma_zero (u : ℕ → ℚ) (k n : ℕ) :
    drawList 0 u k n = List.replicate n 0 := by
  simp [drawList, List.eq_replicate_iff]

lemma drawList_sum_zero (u : ℕ → ℚ) (k n : ℕ) :
    (drawList 0 u k n).sum = 0 := by
  rw [drawList_sigma_zero]; simp

lemma vjAux_k (par : Par) (u : ℕ → ℚ) (j : ℚ) :
    ∀ (l : List ℕ) (k : ℕ), (vjAux par u j l k).k = k + l.sum := by
  intro l
  induction l with
  | nil => intro k; simp [vjAux]
  | cons i rest ih => intro k; simp [vjAux, ih]; omega

lemma vjAux_length (par : Par) (u : ℕ → ℚ) (j : ℚ) :
    ∀ (l : List ℕ) (k : ℕ), (vjAux par u j l k).EU.length = l.length := by
  intro l
  induction l with
  | nil => intro k; simp [vjAux]
  | cons i rest ih => intro k; simp [vjAux, ih]

lemma vjAux_getD (par : Par) (u : ℕ → ℚ) (j : ℚ) :
    ∀ (l : List ℕ) (k m : ℕ), m < l.length → l.getD m 0 ≠ 0 →
      (vjAux par u j l k).EU.getD m 0 =
        j + (drawList par.sigma u (k + (l.take m).sum) (l.getD m 0)).sum /
          (l.getD m 0 : ℚ) := by
  intro l
  induction l with
  | nil => intro k m hm; simp at hm
  | cons i rest ih =>
    intro k m hm hz
    cases m with
    | zero =>
      simp only [List.getD_cons_zero] at hz ⊢
      have hiq : (i : ℚ) ≠ 0 := Nat.cast_ne_zero.mpr hz
      simp only [vjAux, List.take_zero, List.sum_nil, Nat.add_zero,
        List.getD_cons_zero]
      field_simp
    | succ m' =>
      simp only [List.getD_cons_succ] at hz ⊢
      have hm' : m' < rest.length := by simpa using hm
      simp only [vjAux, List.getD_cons_succ, List.take_succ_cons,
        List.sum_cons]
      rw [ih (k + i) m' hm' hz]
      have harr : k + i + (rest.take m').sum = k + (i + (rest.take m').sum) := by
        omega
      rw [harr]

end CareerChoice

namespace CareerChoice

lemma range'_take : ∀ (m n s : ℕ), m ≤ n →
    (List.range' s n).take m = List.range' s m := by
  intro m
  induction m with
  | zero => intro n s h; simp
  | succ m' ih =>
    intro n s h
    cases n with
    | zero => omega
    | succ n' =>
      rw [List.range'_succ, List.take_succ_cons, ih n' (s + 1) (by omega),
        List.range'_succ]

lemma range'_sum_triangle : ∀ m : ℕ, (List.range' 1 m).sum = triangle m := by
  intro m
  induction m with
  | zero => simp [triangle]
  | succ m' ih =>
    have h : List.range' 1 (m' + 1) = List.range' 1 m' ++ [1 + 1 * m'] :=
      List.range'_concat 1 m'
    rw [h]
    simp [ih, triangle]
    omega

lemma range'_getD {m n : ℕ} (h : m < n) : (List.range' 1 n).getD m 0 = 1 + m := by
  rw [List.getD_eq_getElem _ _ (by simp [h])]
  exact List.getElem_range'_1 _ _

lemma range_getD {m n : ℕ} (h : m < n) : (List.range n).getD m 0 = m := by
  rw [List.getD_eq_getElem _ _ (by simp [h])]
  simp

lemma careerStep_k (par : Par) (u : ℕ → ℚ) (e1 e2 e3 : ℚ) (k : ℕ) :
    (careerStep par u e1 e2 e3 k).2.2.2 = k + 1 := by
  simp only [careerStep]
  split_ifs <;> rfl

lemma careerStep_noise (par : Par) (u : ℕ → ℚ) (e1 e2 e3 : ℚ) (k : ℕ) :
    (careerStep par u e1 e2 e3 k).2.2.1 = par.sigma * u k := by
  simp only [careerStep]
  split_ifs <;> rfl

lemma careerStep_cases (par : Par) (u : ℕ → ℚ) (e1 e2 e3 : ℚ) (k : ℕ) :
    (careerStep par u e1 e2 e3 k).1 = 1 ∨ (careerStep par u e1 e2 e3 k).1 = 2 ∨
      (careerStep par u e1 e2 e3 k).1 = 3 := by
  simp only [careerStep]
  split_ifs <;> simp

lemma careerAux_career_length (par : Par) (u : ℕ → ℚ) (E1 E2 E3 : List ℚ) :
    ∀ (l : List ℕ) (k : ℕ),
      (careerAux par u E1 E2 E3 l k).career.length = l.length := by
  intro l
  induction l with
  | nil => intro k; simp [careerAux]
  | cons i rest ih => intro k; simp [careerAux, ih]

lemma careerAux_noiseterm_length (par : Par) (u : ℕ → ℚ) (E1 E2 E3 : List ℚ) :
    ∀ (l : List ℕ) (k : ℕ),
      (careerAux par u E1 E2 E3 l k).noiseterm.length = l.length := by
  intro l
  induction l with
  | nil => intro k; simp [careerAux]
  | cons i rest ih => intro k; simp [careerAux, ih]

lemma careerAux_career_getD (par : Par) (u : ℕ → ℚ) (E1 E2 E3 : List ℚ) :
    ∀ (l : List ℕ) (k m : ℕ), m < l.length →
      (careerAux par u E1 E2 E3 l k).career.getD m 0 =
        (careerStep par u (E1.getD (l.getD m 0) 0) (E2.getD (l.getD m 0) 0)
          (E3.getD (l.getD m 0) 0) (k + m)).1 := by
  intro l
  induction l with
  | nil => intro k m hm; simp at hm
  | cons i rest ih =>
    intro k m hm
    cases m with
    | zero => simp [careerAux]
    | succ m' =>
      have hm' : m' < rest.length := by simpa using hm
      simp only [careerAux, List.getD_cons_succ]
      rw [ih _ m' hm', careerStep_k]
      have harr : k + 1 + m' = k + (m' + 1) := by omega
      rw [harr]

lemma careerAux_noiseterm_getD (par : Par) (u : ℕ → ℚ) (E1 E2 E3 : List ℚ) :
    ∀ (l : List ℕ) (k m : ℕ), m < l.length →
      (careerAux par u E1 E2 E3 l k).noiseterm.getD m 0 =
        par.sigma * u (k + m) := by
  intro l
  induction l with
  | nil => intro k m hm; simp at hm
  | cons i rest ih =>
    intro k m hm
    cases m with
    | zero => simp [careerAux, careerStep_noise]
    | succ m' =>
      have hm' : m' < rest.length := by simpa using hm
      simp only [careerAux, List.getD_cons_succ]
      rw [ih _ m' hm', careerStep_k]
      have harr : k + 1 + m' = k + (m' + 1) := by omega
      rw [harr]

end CareerChoice

namespace CareerChoice

lemma v1_k (par : Par) (u : ℕ → ℚ) (k : ℕ) :
    (v1 par u k).k = k + triangle par.N := by
  rw [v1, vjAux_k, range'_sum_triangle]

lemma v2_k (par : Par) (u : ℕ → ℚ) (k : ℕ) :
    (v2 par u k).k = k + triangle par.N := by
  rw [v2, vjAux_k, range'_sum_triangle]

lemma v3_k (par : Par) (u : ℕ → ℚ) (k : ℕ) :
    (v3 par u k).k = k + triangle par.N := by
  rw [v3, vjAux_k, range'_sum_triangle]

lemma career_career (par : Par) (u : ℕ → ℚ) (k : ℕ) :
    (career par u k).career =
      (careerAux par u (v1 par u k).EU (v2 par u (v1 par u k).k).EU
        (v3 par u (v2 par u (v1 par u k).k).k).EU (List.range par.N)
        (v3 par u (v2 par u (v1 par u k).k).k).k).career := rfl

lemma career_career_cases (par : Par) (u : ℕ → ℚ) (k m : ℕ)
    (hm : m < par.N) :
    (career par u k).career.getD m 0 = 1 ∨
      (career par u k).career.getD m 0 = 2 ∨
      (career par u k).career.getD m 0 = 3 := by
  rw [career_career, careerAux_career_getD _ _ _ _ _ _ _ m (by simpa using hm)]
  exact careerStep_cases _ _ _ _ _ _

lemma career_RV_getD (par : Par) (u : ℕ → ℚ) (k m : ℕ) (hm : m < par.N) :
    (career par u k).RV.getD m 0 =
      ((career par u k).career.getD m 0 : ℚ) +
        par.sigma * u (k + 3 * triangle par.N + m) := by
  have hRV : (career par u k).RV =
      (List.range par.N).map fun i =>
        (((career par u k).career.getD i 0 : ℚ) +
          (careerAux par u (v1 par u k).EU (v2 par u (v1 par u k).k).EU
            (v3 par u (v2 par u (v1 par u k).k).k).EU (List.range par.N)
            (v3 par u (v2 par u (v1 par u k).k).k).k).noiseterm.getD i 0) := rfl
  rw [hRV, List.getD_eq_getElem _ _ (by simpa using hm)]
  simp only [List.getElem_map, List.getElem_range]
  rw [careerAux_noiseterm_getD _ _ _ _ _ _ _ m (by simpa using hm)]
  rw [v3_k, v2_k, v1_k]
  have harr : k + triangle par.N + triangle par.N + triangle par.N + m =
      k + 3 * triangle par.N + m := by omega
  rw [harr]

lemma simulateType_cs_length (par : Par) (u : ℕ → ℚ) (i : ℕ) :
    ∀ (c k : ℕ), (simulateType par u i c k).cs.length = c := by
  intro c
  induction c with
  | zero => intro k; simp [simulateType]
  | succ m ih => intro k; simp [simulateType, ih]

lemma simulateType_cs_getD (par : Par) (u : ℕ → ℚ) (i : ℕ) (hi : i < par.N) :
    ∀ (c k n : ℕ), n < c →
      (simulateType par u i c k).cs.getD n 0 = 1 ∨
        (simulateType par u i c k).cs.getD n 0 = 2 ∨
        (simulateType par u i c k).cs.getD n 0 = 3 := by
  intro c
  induction c with
  | zero => intro k n hn; omega
  | succ m ih =>
    intro k n hn
    cases n with
    | zero =>
      simp only [simulateType, List.getD_cons_zero]
      exact career_career_cases par u k i hi
    | succ n' =>
      simp only [simulateType, List.getD_cons_succ]
      exact ih _ n' (by omega)

end CareerChoice

namespace CareerChoice

lemma getD_set_ne {α : Type} [Inhabited α] (l : List α) (i j : ℕ) (x d : α)
    (h : i ≠ j) : (l.set i x).getD j d = l.getD j d := by
  simp [List.getD_eq_getElem?_getD, List.getElem?_set_ne h]

lemma getD_set_self {α : Type} [Inhabited α] (l : List α) (i : ℕ) (x d : α)
    (h : i < l.length) : (l.set i x).getD i d = x := by
  simp [List.getD_eq_getElem?_getD, List.getElem?_set_self, h]

lemma simulateLoop_untouched (par : Par) (u : ℕ → ℚ) (i : ℕ) :
    ∀ (l : List ℕ) (cd : List (List ℕ)) (evd rvd : List (List ℚ)) (k : ℕ),
      i ∉ l →
      (simulateLoop par u l cd evd rvd k).careerdict.getD i [] =
          cd.getD i [] ∧
        (simulateLoop par u l cd evd rvd k).RVdict.getD i [] =
          rvd.getD i [] := by
  intro l
  induction l with
  | nil => intro cd evd rvd k _; exact ⟨rfl, rfl⟩
  | cons j rest ih =>
    intro cd evd rvd k hni
    have hji : j ≠ i := fun h => hni (h ▸ List.mem_cons_self j rest)
    have hrest : i ∉ rest := fun h => hni (List.mem_cons_of_mem j h)
    simp only [simulateLoop]
    constructor
    · rw [(ih _ _ _ _ hrest).1, getD_set_ne _ _ _ _ _ hji]
    · rw [(ih _ _ _ _ hrest).2, getD_set_ne _ _ _ _ _ hji]

lemma simulateLoop_getD (par : Par) (u : ℕ → ℚ) (i : ℕ) :
    ∀ (l : List ℕ) (cd : List (List ℕ)) (evd rvd : List (List ℚ)) (k : ℕ),
      i ∈ l → l.Nodup → i < cd.length → i < rvd.length →
      ∃ kst : ℕ,
        (simulateLoop par u l cd evd rvd k).careerdict.getD i [] =
            (simulateType par u i (par.K + 1) kst).cs ∧
          (simulateLoop par u l cd evd rvd k).RVdict.getD i [] =
            (simulateType par u i (par.K + 1) kst).rvs := by
  intro l
  induction l with
  | nil => intro cd evd rvd k hmem; simp at hmem
  | cons j rest ih =>
    intro cd evd rvd k hmem hnd hcd hrvd
    rcases List.mem_cons.mp hmem with hcase | hcase
    · subst hcase
      have hrest : i ∉ rest := (List.nodup_cons.mp hnd).1
      refine ⟨k, ?_, ?_⟩
      · simp only [simulateLoop]
        rw [(simulateLoop_untouched par u i rest _ _ _ _ hrest).1,
          getD_set_self _ _ _ _ hcd]
      · simp only [simulateLoop]
        rw [(simulateLoop_untouched par u i rest _ _ _ _ hrest).2,
          getD_set_self _ _ _ _ hrvd]
    · have hnd' : rest.Nodup := (List.nodup_cons.mp hnd).2
      simp only [simulateLoop]
      exact ih _ _ _ _ hcase hnd' (by simpa using hcd) (by simpa using hrvd)

lemma simulate_getD (par : Par) (u : ℕ → ℚ) (k i : ℕ) (hi : i < par.N)
    (hN : par.N ≤ 10) :
    ∃ kst : ℕ,
      (simulate par u k).careerdict.getD i [] =
          (simulateType par u i (par.K + 1) kst).cs ∧
        (simulate par u k).RVdict.getD i [] =
          (simulateType par u i (par.K + 1) kst).rvs := by
  have h10 : i < 10 := lt_of_lt_of_le hi hN
  exact simulateLoop_getD par u i (List.range par.N) dictLitN dictLitQ
    dictLitQ k (List.mem_range.mpr hi) (List.nodup_range par.N)
    (by simpa [dictLitN] using h10) (by simpa [dictLitQ] using h10)

end CareerChoice

namespace CareerChoice

lemma careerAltRow_getD (par : Par) (u : ℕ → ℚ) (i : ℕ) (cdi : List ℕ)
    (rvdi : List ℚ) :
    ∀ (ns : List ℕ) (k m : ℕ), m < ns.length →
      ∃ (e1 e2 e3 : ℚ) (kc : ℕ),
        (careerAltRow par u i cdi rvdi ns k).sws.getD m 0 =
            (careerAltCell par u (cdi.getD (ns.getD m 0) 0)
              (rvdi.getD (ns.getD m 0) 0) e1 e2 e3 kc).sw ∧
          (careerAltRow par u i cdi rvdi ns k).cs.getD m 0 =
            (careerAltCell par u (cdi.getD (ns.getD m 0) 0)
              (rvdi.getD (ns.getD m 0) 0) e1 e2 e3 kc).career := by
  intro ns
  induction ns with
  | nil => intro k m hm; simp at hm
  | cons n rest ih =>
    intro k m hm
    cases m with
    | zero =>
      refine ⟨(v1 par u k).EU.getD i 0, (v2 par u (v1 par u k).k).EU.getD i 0,
        (v3 par u (v2 par u (v1 par u k).k).k).EU.getD i 0,
        (v3 par u (v2 par u (v1 par u k).k).k).k, ?_, ?_⟩ <;>
        simp [careerAltRow]
    | succ m' =>
      have hm' : m' < rest.length := by simpa using hm
      simp only [careerAltRow, List.getD_cons_succ]
      exact ih _ m' hm'

lemma careerAltLoop_untouched (par : Par) (u : ℕ → ℚ) (cd : List (List ℕ))
    (rvd : List (List ℚ)) (i : ℕ) :
    ∀ (l : List ℕ) (swd cad : List (List ℕ)) (evd rvda : List (List ℚ))
      (k : ℕ), i ∉ l →
      (careerAltLoop par u cd rvd l swd cad evd rvda k).switchdict.getD i [] =
          swd.getD i [] ∧
        (careerAltLoop par u cd rvd l swd cad evd rvda k).careerdict_alt.getD
          i [] = cad.getD i [] := by
  intro l
  induction l with
  | nil => intro swd cad evd rvda k _; exact ⟨rfl, rfl⟩
  | cons j rest ih =>
    intro swd cad evd rvda k hni
    have hji : j ≠ i := fun h => hni (h ▸ List.mem_cons_self j rest)
    have hrest : i ∉ rest := fun h => hni (List.mem_cons_of_mem j h)
    simp only [careerAltLoop]
    constructor
    · rw [(ih _ _ _ _ _ hrest).1, getD_set_ne _ _ _ _ _ hji]
    · rw [(ih _ _ _ _ _ hrest).2, getD_set_ne _ _ _ _ _ hji]

lemma careerAltLoop_getD (par : Par) (u : ℕ → ℚ) (cd : List (List ℕ))
    (rvd : List (List ℚ)) (i : ℕ) :
    ∀ (l : List ℕ) (swd cad : List (List ℕ)) (evd rvda : List (List ℚ))
      (k : ℕ), i ∈ l → l.Nodup → i < swd.length → i < cad.length →
      ∃ kst : ℕ,
        (careerAltLoop par u cd rvd l swd cad evd rvda k).switchdict.getD
            i [] =
            (careerAltRow par u i (cd.getD i []) (rvd.getD i [])
              (List.range par.K) kst).sws ∧
          (careerAltLoop par u cd rvd l swd cad evd rvda k).careerdict_alt.getD
            i [] =
            (careerAltRow par u i (cd.getD i []) (rvd.getD i [])
              (List.range par.K) kst).cs := by
  intro l
  induction l with
  | nil => intro swd cad evd rvda k hmem; simp at hmem
  | cons j rest ih =>
    intro swd cad evd rvda k hmem hnd hswd hcad
    rcases List.mem_cons.mp hmem with hcase | hcase
    · subst hcase
      have hrest : i ∉ rest := (List.nodup_cons.mp hnd).1
      refine ⟨k, ?_, ?_⟩
      · simp only [careerAltLoop]
        rw [(careerAltLoop_untouched par u cd rvd i rest _ _ _ _ _ hrest).1,
          getD_set_self _ _ _ _ hswd]
      · simp only [careerAltLoop]
        rw [(careerAltLoop_untouched par u cd rvd i rest _ _ _ _ _ hrest).2,
          getD_set_self _ _ _ _ hcad]
    · have hnd' : rest.Nodup := (List.nodup_cons.mp hnd).2
      simp only [careerAltLoop]
      exact ih _ _ _ _ _ hcase hnd' (by simpa using hswd) (by simpa using hcad)

lemma career_alt_getD (par : Par) (u : ℕ → ℚ) (cd : List (List ℕ))
    (rvd : List (List ℚ)) (k i : ℕ) (hi : i < par.N) (hN : par.N ≤ 10) :
    ∃ kst : ℕ,
      (career_alt par u cd rvd k).switchdict.getD i [] =
          (careerAltRow par u i (cd.getD i []) (rvd.getD i [])
            (List.range par.K) kst).sws ∧
        (career_alt par u cd rvd k).careerdict_alt.getD i [] =
          (careerAltRow par u i (cd.getD i []) (rvd.getD i [])
            (List.range par.K) kst).cs := by
  have h10 : i < 10 := lt_of_lt_of_le hi hN
  exact careerAltLoop_getD par u cd rvd i (List.range par.N) dictLitN dictLitN
    dictLitQ dictLitQ k (List.mem_range.mpr hi) (List.nodup_range par.N)
    (by simpa [dictLitN] using h10) (by simpa [dictLitN] using h10)

end CareerChoice

namespace CareerChoice

lemma max3_cases (rv a b : ℚ) :
    (max (max rv a) b = rv ∧ a ≤ rv ∧ b ≤ rv) ∨
      (max (max rv a) b ≠ rv ∧ (rv < a ∨ rv < b)) := by
  by_cases h : max (max rv a) b = rv
  · left
    refine ⟨h, ?_, ?_⟩
    · have : a ≤ max (max rv a) b :=
        le_trans (le_max_right rv a) (le_max_left _ b)
      linarith [this, le_of_eq h]
    · have : b ≤ max (max rv a) b := le_max_right _ b
      linarith [this, le_of_eq h]
  · right
    refine ⟨h, ?_⟩
    have hle : rv ≤ max (max rv a) b :=
      le_trans (le_max_left rv a) (le_max_left _ b)
    have hlt : rv < max (max rv a) b := lt_of_le_of_ne hle (Ne.symm h)
    rcases max_choice (max rv a) b with h1 | h1
    · rcases max_choice rv a with h2 | h2
      · exact absurd (by rw [h1, h2]) h
      · left
        rw [h1, h2] at hlt
        exact hlt
    · right
      rw [h1] at hlt
      exact hlt

lemma careerAltCell_spec (par : Par) (u : ℕ → ℚ) (orig : ℕ)
    (rv e1 e2 e3 : ℚ) (k : ℕ) (h : orig = 1 ∨ orig = 2 ∨ orig = 3) :
    ((careerAltCell par u orig rv e1 e2 e3 k).sw = 0 ∧
      (careerAltCell par u orig rv e1 e2 e3 k).career = orig ∧
      (careerAltCell par u orig rv e1 e2 e3 k).RV = rv ∧
      (altPair orig e1 e2 e3).1 - par.c ≤ rv ∧
      (altPair orig e1 e2 e3).2 - par.c ≤ rv) ∨
    ((careerAltCell par u orig rv e1 e2 e3 k).sw = 1 ∧
      (careerAltCell par u orig rv e1 e2 e3 k).career ≠ orig ∧
      (careerAltCell par u orig rv e1 e2 e3 k).RV =
        ((careerAltCell par u orig rv e1 e2 e3 k).career : ℚ) - par.c +
          par.sigma * u k ∧
      (rv < (altPair orig e1 e2 e3).1 - par.c ∨
        rv < (altPair orig e1 e2 e3).2 - par.c)) := by
  rcases h with h | h | h <;> subst h
  · have hmx := max3_cases rv (e2 - par.c) (e3 - par.c)
    simp only [careerAltCell, altPair]
    norm_num
    split_ifs with hr h2
    · rcases hmx with ⟨_, ha, hb⟩ | ⟨hne, _⟩
      · exact Or.inl ⟨rfl, rfl, rfl, by linarith, by linarith⟩
      · exact absurd hr hne
    · rcases hmx with ⟨hmax, _, _⟩ | ⟨_, hlt⟩
      · exact absurd hmax hr
      · refine Or.inr ⟨rfl, by norm_num, by push_cast; ring, hlt⟩
    · rcases hmx with ⟨hmax, _, _⟩ | ⟨_, hlt⟩
      · exact absurd hmax hr
      · refine Or.inr ⟨rfl, by norm_num, by push_cast; ring, hlt⟩
  · have hmx := max3_cases rv (e1 - par.c) (e3 - par.c)
    simp only [careerAltCell, altPair]
    norm_num
    split_ifs with hr h2
    · rcases hmx with ⟨_, ha, hb⟩ | ⟨hne, _⟩
      · exact Or.inl ⟨rfl, rfl, rfl, by linarith, by linarith⟩
      · exact absurd hr hne
    · rcases hmx with ⟨hmax, _, _⟩ | ⟨_, hlt⟩
      · exact absurd hmax hr
      · refine Or.inr ⟨rfl, by norm_num, by push_cast; ring, hlt⟩
    · rcases hmx with ⟨hmax, _, _⟩ | ⟨_, hlt⟩
      · exact absurd hmax hr
      · refine Or.inr ⟨rfl, by norm_num, by push_cast; ring, hlt⟩
  · have hmx := max3_cases rv (e1 - par.c) (e2 - par.c)
    simp only [careerAltCell, altPair]
    norm_num
    split_ifs with hr h2
    · rcases hmx with ⟨_, ha, hb⟩ | ⟨hne, _⟩
      · exact Or.inl ⟨rfl, rfl, rfl, by linarith, by linarith⟩
      · exact absurd hr hne
    · rcases hmx with ⟨hmax, _, _⟩ | ⟨_, hlt⟩
      · exact absurd hmax hr
      · refine Or.inr ⟨rfl, by norm_num, by push_cast; ring, hlt⟩
    · rcases hmx with ⟨hmax, _, _⟩ | ⟨_, hlt⟩
      · exact absurd hmax hr
      · refine Or.inr ⟨rfl, by norm_num, by push_cast; ring, hlt⟩

end CareerChoice

lemma countAux_total : ∀ l : List ℕ,
    (countAux l).1 + (countAux l).2.1 + (countAux l).2.2 = l.length := by
  intro l
  induction l with
  | nil => simp [countAux]
  | cons e rest ih =>
    simp only [countAux]
    split_ifs <;> simp <;> omega

/-- C8: for a non-empty list of recorded career choices, the three
empirical proportions returned by `count` sum to 1. -/
theorem count_sum_one (l : List ℕ) (h : l ≠ []) : (count l).sum = 1 := by
  have hlen : l.length ≠ 0 := fun hc => h (List.eq_nil_of_length_eq_zero hc)
  have hq : (l.length : ℚ) ≠ 0 := Nat.cast_ne_zero.mpr hlen
  have htot := countAux_total l
  simp only [count, List.sum_cons, List.sum_nil, add_zero]
  rw [div_add_div_same, div_add_div_same]
  have hcast : ((countAux l).1 : ℚ) + ((countAux l).2.1 : ℚ) +
      ((countAux l).2.2 : ℚ) = (l.length : ℚ) := by
    exact_mod_cast htot
  rw [← add_assoc, hcast]
  exact div_self hq

/-- Witness for C8 at the concrete list `[1, 2, 3, 3]`. -/
theorem count_sum_one_witness : (count [1, 2, 3, 3]).sum = 1 :=
  count_sum_one [1, 2, 3, 3] (by simp)

namespace CareerChoice

/-- C5: in the first-choice simulator, the per-(type, trial) selection
body `careerStep` (applied by `careerAux` to entry `l[m]` of the estimate
lists at every loop step, second conjunct) picks track 1 exactly when
track 1's estimate is weakly maximal, track 2 exactly when track 2's
estimate is weakly above track 3's and strictly above track 1's, and
track 3 exactly when its estimate strictly exceeds both others — i.e. the
track with the maximal estimate, ties resolving to the lowest index. -/
theorem careerStep_lowest_max :
    (∀ (par : Par) (u : ℕ → ℚ) (e1 e2 e3 : ℚ) (k : ℕ),
        ((careerStep par u e1 e2 e3 k).1 = 1 ↔ e2 ≤ e1 ∧ e3 ≤ e1) ∧
        ((careerStep par u e1 e2 e3 k).1 = 2 ↔ e1 < e2 ∧ e3 ≤ e2) ∧
        ((careerStep par u e1 e2 e3 k).1 = 3 ↔ e1 < e3 ∧ e2 < e3)) ∧
    (∀ (par : Par) (u : ℕ → ℚ) (E1 E2 E3 : List ℚ) (l : List ℕ) (k m : ℕ),
        m < l.length →
        (careerAux par u E1 E2 E3 l k).career.getD m 0 =
          (careerStep par u (E1.getD (l.getD m 0) 0) (E2.getD (l.getD m 0) 0)
            (E3.getD (l.getD m 0) 0) (k + m)).1) := by
  constructor
  · intro par u e1 e2 e3 k
    simp only [careerStep]
    split_ifs with h1 h2
    · have h2' : e2 ≤ e1 := by
        have hm := le_trans (le_max_right e1 e2) (le_max_left (max e1 e2) e3)
        rw [h1] at hm
        exact hm
      have h3' : e3 ≤ e1 := by
        have hm := le_max_right (max e1 e2) e3
        rw [h1] at hm
        exact hm
      refine ⟨by simp [h2', h3'], ?_, ?_⟩
      · constructor
        · intro hc; exact absurd hc (by norm_num)
        · rintro ⟨hl, _⟩; exact absurd hl (not_lt.mpr h2')
      · constructor
        · intro hc; exact absurd hc (by norm_num)
        · rintro ⟨hl, _⟩; exact absurd hl (not_lt.mpr h3')
    · have hle : e1 ≤ e2 := by
        have hm := le_trans (le_max_left e1 e2) (le_max_left (max e1 e2) e3)
        rw [h2] at hm
        exact hm
      have hlt : e1 < e2 :=
        lt_of_le_of_ne hle (fun he => h1 (h2.trans he.symm))
      have h3le : e3 ≤ e2 := by
        have hm := le_max_right (max e1 e2) e3
        rw [h2] at hm
        exact hm
      refine ⟨?_, by simp [hlt, h3le], ?_⟩
      · constructor
        · intro hc; exact absurd hc (by norm_num)
        · rintro ⟨hl, _⟩; exact absurd hlt (not_lt.mpr hl)
      · constructor
        · intro hc; exact absurd hc (by norm_num)
        · rintro ⟨_, hr⟩; exact absurd hr (not_lt.mpr h3le)
    · have hc3 : max (max e1 e2) e3 = e3 := by
        rcases max_choice (max e1 e2) e3 with hc | hc
        · rcases max_choice e1 e2 with hd | hd
          · exact absurd (hc.trans hd) h1
          · exact absurd (hc.trans hd) h2
        · exact hc
      have h1le : e1 ≤ e3 := by
        have hm := le_trans (le_max_left e1 e2) (le_max_left (max e1 e2) e3)
        rw [hc3] at hm
        exact hm
      have h1lt : e1 < e3 :=
        lt_of_le_of_ne h1le (fun he => h1 (hc3.trans he.symm))
      have h2le : e2 ≤ e3 := by
        have hm := le_trans (le_max_right e1 e2) (le_max_left (max e1 e2) e3)
        rw [hc3] at hm
        exact hm
      have h2lt : e2 < e3 :=
        lt_of_le_of_ne h2le (fun he => h2 (hc3.trans he.symm))
      refine ⟨?_, ?_, by simp [h1lt, h2lt]⟩
      · constructor
        · intro hc; exact absurd hc (by norm_num)
        · rintro ⟨_, hr⟩; exact absurd h1lt (not_lt.mpr hr)
      · constructor
        · intro hc; exact absurd hc (by norm_num)
        · rintro ⟨_, hr⟩; exact absurd h2lt (not_lt.mpr hr)
  · intro par u E1 E2 E3 l k m hm
    exact careerAux_career_getD par u E1 E2 E3 l k m hm

end CareerChoice

namespace CareerChoice

/-- Witness for C5 at a concrete loop instance. -/
theorem careerStep_lowest_max_witness :
    (0 : ℕ) < ([0] : List ℕ).length ∧
      (careerAux defaultPar zeroStream [] [] [] [0] 0).career.getD 0 0 =
        (careerStep defaultPar zeroStream
          (([] : List ℚ).getD (([0] : List ℕ).getD 0 0) 0)
          (([] : List ℚ).getD (([0] : List ℕ).getD 0 0) 0)
          (([] : List ℚ).getD (([0] : List ℕ).getD 0 0) 0) (0 + 0)).1 :=
  ⟨by norm_num,
    careerStep_lowest_max.2 defaultPar zeroStream [] [] [] [0] 0 0
      (by norm_num)⟩

/-- C4: in the switch-decision simulator, the per-(type, trial) branch
body `careerAltCell` (with `orig` the original career, `rv` the realized
first-choice payoff, and `e1, e2, e3` the freshly recomputed estimates,
of which `altPair` lists the two non-chosen ones) switches exactly when
some non-chosen track's fresh estimate net of the switching cost strictly
exceeds `rv`; on a switch the recorded payoff is the new track's index
minus `c` plus one fresh noise draw, and without a switch the recorded
payoff is `rv` and the career is unchanged. -/
theorem careerAltCell_switch_iff (par : Par) (u : ℕ → ℚ) (orig : ℕ)
    (rv e1 e2 e3 : ℚ) (k : ℕ) (h : orig = 1 ∨ orig = 2 ∨ orig = 3) :
    ((careerAltCell par u orig rv e1 e2 e3 k).sw = 1 ↔
      (rv < (altPair orig e1 e2 e3).1 - par.c ∨
        rv < (altPair orig e1 e2 e3).2 - par.c)) ∧
    ((careerAltCell par u orig rv e1 e2 e3 k).sw = 1 →
      (careerAltCell par u orig rv e1 e2 e3 k).RV =
        ((careerAltCell par u orig rv e1 e2 e3 k).career : ℚ) - par.c +
          par.sigma * u k) ∧
    ((careerAltCell par u orig rv e1 e2 e3 k).sw = 0 →
      (careerAltCell par u orig rv e1 e2 e3 k).RV = rv ∧
      (careerAltCell par u orig rv e1 e2 e3 k).career = orig) := by
  rcases careerAltCell_spec par u orig rv e1 e2 e3 k h with
    ⟨h0, hcar, hrv, ha, hb⟩ | ⟨h1, _, hrv, hlt⟩
  · refine ⟨?_, ?_, fun _ => ⟨hrv, hcar⟩⟩
    · constructor
      · intro hc; rw [h0] at hc; exact absurd hc (by norm_num)
      · rintro (hc | hc)
        · exact absurd hc (not_lt.mpr ha)
        · exact absurd hc (not_lt.mpr hb)
    · intro hc; rw [h0] at hc; exact absurd hc (by norm_num)
  · refine ⟨⟨fun _ => hlt, fun _ => h1⟩, fun _ => hrv, ?_⟩
    intro hc; rw [h1] at hc; exact absurd hc (by norm_num)

/-- Witness for C4 at `orig = 1`, all values zero. -/
theorem careerAltCell_switch_iff_witness :
    ((1 : ℕ) = 1 ∨ (1 : ℕ) = 2 ∨ (1 : ℕ) = 3) ∧
    (((careerAltCell defaultPar zeroStream 1 0 0 0 0 0).sw = 1 ↔
      ((0 : ℚ) < (altPair 1 0 0 0).1 - defaultPar.c ∨
        (0 : ℚ) < (altPair 1 0 0 0).2 - defaultPar.c)) ∧
    ((careerAltCell defaultPar zeroStream 1 0 0 0 0 0).sw = 1 →
      (careerAltCell defaultPar zeroStream 1 0 0 0 0 0).RV =
        ((careerAltCell defaultPar zeroStream 1 0 0 0 0 0).career : ℚ) -
          defaultPar.c + defaultPar.sigma * zeroStream 0) ∧
    ((careerAltCell defaultPar zeroStream 1 0 0 0 0 0).sw = 0 →
      (careerAltCell defaultPar zeroStream 1 0 0 0 0 0).RV = 0 ∧
      (careerAltCell defaultPar zeroStream 1 0 0 0 0 0).career = 1)) :=
  ⟨Or.inl rfl,
    careerAltCell_switch_iff defaultPar zeroStream 1 0 0 0 0 0 (Or.inl rfl)⟩

end CareerChoice

namespace CareerChoice

/-- C10: for every type `i < N` and trial `n < K`, the record produced by
`career_alt` on the dictionaries returned by `simulate` has a switch
indicator that is 0 or 1; it is 0 exactly when the second-year career
equals the originally chosen one, and 1 forces a different career. -/
theorem career_alt_switch_indicator (par : Par) (u : ℕ → ℚ)
    (k0 k1 i n : ℕ) (hi : i < par.N) (hN : par.N ≤ 10) (hn : n < par.K) :
    (((career_alt par u (simulate par u k0).careerdict
          (simulate par u k0).RVdict k1).switchdict.getD i []).getD n 0 = 0 ∨
      ((career_alt par u (simulate par u k0).careerdict
          (simulate par u k0).RVdict k1).switchdict.getD i []).getD n 0 = 1) ∧
    (((career_alt par u (simulate par u k0).careerdict
          (simulate par u k0).RVdict k1).switchdict.getD i []).getD n 0 = 0 ↔
      ((career_alt par u (simulate par u k0).careerdict
          (simulate par u k0).RVdict k1).careerdict_alt.getD i []).getD n 0 =
        ((simulate par u k0).careerdict.getD i []).getD n 0) ∧
    (((career_alt par u (simulate par u k0).careerdict
          (simulate par u k0).RVdict k1).switchdict.getD i []).getD n 0 = 1 →
      ((career_alt par u (simulate par u k0).careerdict
          (simulate par u k0).RVdict k1).careerdict_alt.getD i []).getD n 0 ≠
        ((simulate par u k0).careerdict.getD i []).getD n 0) := by
  obtain ⟨kst, hcd, hrvd⟩ := simulate_getD par u k0 i hi hN
  obtain ⟨kalt, hsw, hca⟩ := career_alt_getD par u
    (simulate par u k0).careerdict (simulate par u k0).RVdict k1 i hi hN
  rw [hsw, hca, hcd, hrvd]
  obtain ⟨e1, e2, e3, kc, hswm, hcam⟩ := careerAltRow_getD par u i
    (simulateType par u i (par.K + 1) kst).cs
    (simulateType par u i (par.K + 1) kst).rvs
    (List.range par.K) kalt n (by simpa using hn)
  rw [range_getD hn] at hswm hcam
  rw [hswm, hcam]
  have h123 := simulateType_cs_getD par u i hi (par.K + 1) kst n (by omega)
  rcases careerAltCell_spec par u
    ((simulateType par u i (par.K + 1) kst).cs.getD n 0)
    ((simulateType par u i (par.K + 1) kst).rvs.getD n 0) e1 e2 e3 kc h123
    with ⟨h0, hcar, _, _, _⟩ | ⟨h1, hne, _, _⟩
  · refine ⟨Or.inl h0, ?_, ?_⟩
    · constructor
      · intro _; exact hcar
      · intro _; exact h0
    · intro hc; rw [h0] at hc; exact absurd hc (by norm_num)
  · refine ⟨Or.inr h1, ?_, fun _ => hne⟩
    constructor
    · intro hc; rw [h1] at hc; exact absurd hc (by norm_num)
    · intro hc; exact absurd hc hne

/-- Witness for C10 on the zero-noise scenario parameters. -/
theorem career_alt_switch_indicator_witness :
    ((0 : ℕ) < parScen.N ∧ parScen.N ≤ 10 ∧ (0 : ℕ) < parScen.K) ∧
    ((((career_alt parScen zeroStream
          (simulate parScen zeroStream 0).careerdict
          (simulate parScen zeroStream 0).RVdict 0).switchdict.getD
            0 []).getD 0 0 = 0 ∨
        ((career_alt parScen zeroStream
          (simulate parScen zeroStream 0).careerdict
          (simulate parScen zeroStream 0).RVdict 0).switchdict.getD
            0 []).getD 0 0 = 1) ∧
      (((career_alt parScen zeroStream
          (simulate parScen zeroStream 0).careerdict
          (simulate parScen zeroStream 0).RVdict 0).switchdict.getD
            0 []).getD 0 0 = 0 ↔
        ((career_alt parScen zeroStream
          (simulate parScen zeroStream 0).careerdict
          (simulate parScen zeroStream 0).RVdict 0).careerdict_alt.getD
            0 []).getD 0 0 =
          ((simulate parScen zeroStream 0).careerdict.getD 0 []).getD 0 0) ∧
      (((career_alt parScen zeroStream
          (simulate parScen zeroStream 0).careerdict
          (simulate parScen zeroStream 0).RVdict 0).switchdict.getD
            0 []).getD 0 0 = 1 →
        ((career_alt parScen zeroStream
          (simulate parScen zeroStream 0).careerdict
          (simulate parScen zeroStream 0).RVdict 0).careerdict_alt.getD
            0 []).getD 0 0 ≠
          ((simulate parScen zeroStream 0).careerdict.getD 0 []).getD 0 0)) :=
  ⟨⟨by norm_num [parScen], by norm_num [parScen], by norm_num [parScen]⟩,
    career_alt_switch_indicator parScen zeroStream 0 0 0 0
      (by norm_num [parScen]) (by norm_num [parScen]) (by norm_num [parScen])⟩

end CareerChoice

namespace CareerChoice

/-- C3: the realized first-year utility recorded by `career` at position
`m` equals the chosen track's index plus one fresh noise draw — the draw
at stream position `k + 3*triangle N + m`, taken after all estimate
draws and the `m` earlier per-type draws (first conjunct); and, at a
concrete input, it differs from the chosen expected utility plus that
same noise (second conjunct), confirming the `track + noise` reading. -/
theorem career_RV_is_track_plus_noise :
    (∀ (par : Par) (u : ℕ → ℚ) (k m : ℕ), m < par.N →
      (career par u k).RV.getD m 0 =
        ((career par u k).career.getD m 0 : ℚ) +
          par.sigma * u (k + 3 * triangle par.N + m)) ∧
    (career parC3 oneStream 0).RV.getD 0 0 ≠
      (career parC3 oneStream 0).EV.getD 0 0 +
        parC3.sigma * oneStream (0 + 3 * triangle parC3.N + 0) := by
  constructor
  · intro par u k m hm
    exact career_RV_getD par u k m hm
  · norm_num [career, v1, v2, v3, vjAux, drawList, careerAux, careerStep,
      parC3, oneStream, triangle, List.range'_one, List.range_succ,
      List.range_zero]

/-- Witness for C3 at the concrete input used by its second conjunct. -/
theorem career_RV_is_track_plus_noise_witness :
    (0 : ℕ) < parC3.N ∧
      (career parC3 oneStream 0).RV.getD 0 0 =
        ((career parC3 oneStream 0).career.getD 0 0 : ℚ) +
          parC3.sigma * oneStream (0 + 3 * triangle parC3.N + 0) :=
  ⟨by norm_num [parC3],
    career_RV_is_track_plus_noise.1 parC3 oneStream 0 0 (by norm_num [parC3])⟩

end CareerChoice

namespace CareerChoice

/-- C1 counterexample: with all-zero draws (sample mean 0) and `N = 2`,
the claim predicts the entry of `v1` for graduate type `i = 2` to be
`base_1 + mean = 1*2 + 0 = 2`, but the code returns `1`: the estimator is
`1/i*(1*i + eps.sum())`, so the base is `1`, not `1*i`. -/
theorem v1_base_scaling_counterexample :
    (v1 parC1 zeroStream 0).EU.getD 1 0 ≠
      1 * 2 + (drawList parC1.sigma zeroStream (0 + triangle 1) 2).sum / 2 := by
  norm_num [v1, vjAux, drawList, parC1, zeroStream, triangle,
    show List.range' 1 2 = [1, 2] from rfl, List.range_succ, List.range_zero]

/-- C1 amended: for every graduate type `i = m + 1 ≤ N`, the estimator
`vj` returns `base_j + mean(i draws)` with `base_j = j` (NOT `j * i`):
algebraically `1/i*(j*i + eps.sum()) = j + eps.sum()/i`, using the `i`
draws starting at stream position `k + triangle m`. -/
theorem v_entries_base_plus_mean (par : Par) (u : ℕ → ℚ) (k m : ℕ)
    (hm : m < par.N) :
    (v1 par u k).EU.getD m 0 =
      1 + (drawList par.sigma u (k + triangle m) (m + 1)).sum / ((m : ℚ) + 1) ∧
    (v2 par u k).EU.getD m 0 =
      2 + (drawList par.sigma u (k + triangle m) (m + 1)).sum / ((m : ℚ) + 1) ∧
    (v3 par u k).EU.getD m 0 =
      3 + (drawList par.sigma u (k + triangle m) (m + 1)).sum / ((m : ℚ) + 1) := by
  have hlen : m < (List.range' 1 par.N).length := by simpa using hm
  have hgd : (List.range' 1 par.N).getD m 0 = 1 + m := range'_getD hm
  have hz : (List.range' 1 par.N).getD m 0 ≠ 0 := by rw [hgd]; omega
  have htake : ((List.range' 1 par.N).take m).sum = triangle m := by
    rw [range'_take m par.N 1 (by omega), range'_sum_triangle]
  refine ⟨?_, ?_, ?_⟩
  · rw [v1, vjAux_getD par u 1 (List.range' 1 par.N) k m hlen hz, hgd, htake,
      Nat.add_comm 1 m]
    push_cast
    ring
  · rw [v2, vjAux_getD par u 2 (List.range' 1 par.N) k m hlen hz, hgd, htake,
      Nat.add_comm 1 m]
    push_cast
    ring
  · rw [v3, vjAux_getD par u 3 (List.range' 1 par.N) k m hlen hz, hgd, htake,
      Nat.add_comm 1 m]
    push_cast
    ring

/-- Witness for the amended C1 at `m = 0`, `N = 1`, all-ones draws. -/
theorem v_entries_base_plus_mean_witness :
    (0 : ℕ) < parC3.N ∧
      (v1 parC3 oneStream 0).EU.getD 0 0 =
        1 + (drawList parC3.sigma oneStream (0 + triangle 0) (0 + 1)).sum /
          ((0 : ℚ) + 1) :=
  ⟨by norm_num [parC3],
    (v_entries_base_plus_mean parC3 oneStream 0 0 (by norm_num [parC3])).1⟩

end CareerChoice

namespace CareerChoice

/-- C2 (bug evidence): with `K = 2` the inner `n = 0; while n <= par.K`
loop of `simulate` records `3 = K + 1` trial records for type 1, not the
`K` records announced everywhere else (its consumers `career_alt` and
`sort_career` iterate `range(0, K)`). -/
theorem simulate_records_K_plus_one :
    ((simulate parBug zeroStream 0).careerdict.getD 0 []).length =
      parBug.K + 1 := by
  obtain ⟨kst, hcd, _⟩ := simulate_getD parBug zeroStream 0 0
    (by norm_num [parBug]) (by norm_num [parBug])
  rw [hcd, simulateType_cs_length]

/-- C6 counterexample: `__init__` performs no parameter validation — it
returns `Except.ok` even for the recorded seed — and with the malformed
parameters `K = 0`, `sigma = 0` the simulator still runs and records a
trial per type instead of failing fast with an InvalidParameter error. -/
theorem init_no_validation_counterexample :
    init (some 0) = Except.ok (defaultPar, some 0) ∧
      ((simulate parBad zeroStream 0).careerdict.getD 0 []).length = 1 := by
  constructor
  · rfl
  · obtain ⟨kst, hcd, _⟩ := simulate_getD parBad zeroStream 0 0
      (by norm_num [parBad]) (by norm_num [parBad])
    rw [hcd, simulateType_cs_length]
    norm_num [parBad]

/-- C6 amended: the code has no fail-fast parameter validation: `init`
succeeds for every seed (there is no InvalidParameter path), and even
with the non-positive parameters `K = 0` and `sigma = 0`, `simulate`
runs to completion and produces `K + 1` records per type. -/
theorem init_accepts_all_parameters :
    (∀ seed : Option ℤ, init seed = Except.ok (defaultPar, seed)) ∧
      ∀ (u : ℕ → ℚ) (k : ℕ),
        ((simulate parBad u k).careerdict.getD 0 []).length =
          parBad.K + 1 := by
  constructor
  · intro seed; rfl
  · intro u k
    obtain ⟨kst, hcd, _⟩ := simulate_getD parBad u k 0
      (by norm_num [parBad]) (by norm_num [parBad])
    rw [hcd, simulateType_cs_length]

/-- C7: the numpy global generator, once seeded with an integer, is a
deterministic stream; modelling the post-seed generator as `rng seed`,
two runs of `simulate` with the determinism-scenario parameters
(`N = 3`, `K = 1000`, `sigma = 1`, `v = [1,2,3]`, `c = 1`) and equal
seeds produce identical chosen-track records. -/
theorem simulate_deterministic_in_seed (rng : ℤ → ℕ → ℚ) (s1 s7 : ℤ)
    (h : s1 = s7) :
    (simulate parSeed (rng s1) 0).careerdict =
      (simulate parSeed (rng s7) 0).careerdict := by
  rw [h]

/-- Witness for C7 at the constant generator and seed 0. -/
theorem simulate_deterministic_in_seed_witness :
    (0 : ℤ) = 0 ∧
      (simulate parSeed ((fun _ _ => (0 : ℚ)) (0 : ℤ)) 0).careerdict =
        (simulate parSeed ((fun _ _ => (0 : ℚ)) (0 : ℤ)) 0).careerdict :=
  ⟨rfl, simulate_deterministic_in_seed (fun _ _ => 0) 0 0 rfl⟩

end CareerChoice

namespace CareerChoice

lemma vjAux_scen (u : ℕ → ℚ) (j : ℚ) (k : ℕ) :
    vjAux parScen u j [1] k = ⟨[j], k + 1⟩ := by
  have hσ : parScen.sigma = 0 := rfl
  simp [vjAux, hσ, drawList_sum_zero]

lemma v1_scen (u : ℕ → ℚ) (k : ℕ) : v1 parScen u k = ⟨[1], k + 1⟩ := by
  rw [v1, show List.range' 1 parScen.N = [1] from rfl, vjAux_scen]

lemma v2_scen (u : ℕ → ℚ) (k : ℕ) : v2 parScen u k = ⟨[2], k + 1⟩ := by
  rw [v2, show List.range' 1 parScen.N = [1] from rfl, vjAux_scen]

lemma v3_scen (u : ℕ → ℚ) (k : ℕ) : v3 parScen u k = ⟨[3], k + 1⟩ := by
  rw [v3, show List.range' 1 parScen.N = [1] from rfl, vjAux_scen]

lemma career_scen (u : ℕ → ℚ) (k : ℕ) :
    career parScen u k = ⟨[3], [3], [3], k + 3 + 1⟩ := by
  have hσ : parScen.sigma = 0 := rfl
  simp only [career, v1_scen, v2_scen, v3_scen,
    show List.range parScen.N = [0] from rfl]
  norm_num [careerAux, careerStep, hσ]

lemma simulateType_scen (u : ℕ → ℚ) : ∀ (m k : ℕ),
    simulateType parScen u 0 m k =
      ⟨List.replicate m 3, List.replicate m 3, List.replicate m 3,
        k + 4 * m⟩ := by
  intro m
  induction m with
  | zero => intro k; simp [simulateType]
  | succ m' ih =>
    intro k
    simp [simulateType, career_scen, ih, List.replicate_succ,
      TypeOut.mk.injEq]
    omega

end CareerChoice

namespace CareerChoice

lemma simulate_scen (u : ℕ → ℚ) (k : ℕ) :
    simulate parScen u k =
      ⟨List.replicate 6 3 :: List.replicate 9 [],
        List.replicate 6 (3 : ℚ) :: List.replicate 9 [],
        List.replicate 6 (3 : ℚ) :: List.replicate 9 [], k + 24⟩ := by
  simp only [simulate, show List.range parScen.N = [0] from rfl,
    simulateLoop, show parScen.K + 1 = 6 from rfl, simulateType_scen]
  simp [dictLitN, dictLitQ, SimOut.mk.injEq, List.replicate_succ]

lemma getD_replicate_scen {α : Type} [Inhabited α] (x d : α) (c n : ℕ)
    (h : n < c) : (List.replicate c x).getD n d = x := by
  rw [List.getD_eq_getElem _ _ (by simpa using h)]
  exact List.getElem_replicate _ _

lemma careerAltCell_scen (u : ℕ → ℚ) (k : ℕ) :
    careerAltCell parScen u 3 3 1 2 3 k = ⟨3, 3, 0, 3, k⟩ := by
  norm_num [careerAltCell, show parScen.c = (1 : ℚ) from rfl]

lemma careerAltRow_scen (u : ℕ → ℚ) : ∀ (ns : List ℕ) (k : ℕ),
    (∀ n ∈ ns, n < 6) →
    careerAltRow parScen u 0 (List.replicate 6 3)
        (List.replicate 6 (3 : ℚ)) ns k =
      ⟨List.replicate ns.length 0, List.replicate ns.length 3,
        List.replicate ns.length 3, List.replicate ns.length 3,
        k + 3 * ns.length⟩ := by
  intro ns
  induction ns with
  | nil => intro k _; simp [careerAltRow]
  | cons n rest ih =>
    intro k hmem
    have hn : n < 6 := hmem n (List.mem_cons_self n rest)
    have hrest : ∀ x ∈ rest, x < 6 := fun x hx =>
      hmem x (List.mem_cons_of_mem n hx)
    simp only [careerAltRow, v1_scen, v2_scen, v3_scen,
      getD_replicate_scen _ _ _ _ hn, ih _ hrest]
    simp [careerAltCell_scen, List.replicate_succ, AltRowOut.mk.injEq]
    omega

end CareerChoice

namespace CareerChoice

/-- C9: with noise disabled (`sigma = 0`), base values `v = [1,2,3]` and
switching cost `c = 1` (scenario `N = 1`, `K = 5`), every recorded trial
chooses track 3 — the loop records 6 entries, all equal to 3 — and no
graduate ever switches: every switch indicator is 0. -/
theorem zero_noise_scenario (u : ℕ → ℚ) (k : ℕ) :
    (simulate parScen u k).careerdict =
      List.replicate 6 3 :: List.replicate 9 [] ∧
    (career_alt parScen u (simulate parScen u k).careerdict
        (simulate parScen u k).RVdict
        (simulate parScen u k).k).switchdict =
      List.replicate 5 0 :: List.replicate 9 [] := by
  rw [simulate_scen]
  refine ⟨rfl, ?_⟩
  have hrow := careerAltRow_scen u (List.range parScen.K) (k + 24)
    (by decide)
  simp only [career_alt, show List.range parScen.N = [0] from rfl,
    careerAltLoop, List.getD_cons_zero]
  rw [hrow]
  simp [dictLitN, List.replicate_succ, show (List.range parScen.K).length = 5
    from rfl]

end CareerChoice
